import Mathlib

/-!
Verification of the masonry layout widget (Jeellow/masonry).

The repository contains several structurally similar Vue components:
 * `src/wwElement.vue` and `unnamed/part_000` — masonry-wall variants with a
   progressive skeleton renderer (`renderItemsProgressively`);
 * `unnamed/part_001` (first component) — CSS multi-column variant with the
   `numColumns` clamp computation;
 * `unnamed/part_001` (second component) — round-robin flex variant with the
   `columns` distribution.

This file gives a shallow embedding of those computations and proves the
behavioural properties stated in the specification.
-/

namespace Masonry

/-! ## JavaScript value model

`getItemKey` distinguishes `undefined`/`null` checks from truthiness checks,
so we model the small fragment of JavaScript values that the key function
inspects: `undefined`, `null`, booleans, (integer) numbers and strings. -/

/-- A JavaScript value as far as the key-derivation logic observes it. -/
inductive JVal where
  | vUndefined : JVal
  | vNull : JVal
  | vBool : Bool → JVal
  | vNum : Int → JVal
  | vStr : String → JVal
  deriving DecidableEq, Repr

/-- JavaScript truthiness for the modelled values: `undefined`, `null`,
`false`, `0` and the empty string are falsy, everything else is truthy. -/
def truthy : JVal → Bool
  | .vUndefined => false
  | .vNull => false
  | .vBool b => b
  | .vNum n => n != 0
  | .vStr s => s != ""

/-- String interpolation of a modelled value, as in a template literal. -/
def jvalToString : JVal → String
  | .vUndefined => "undefined"
  | .vNull => "null"
  | .vBool true => "true"
  | .vBool false => "false"
  | .vNum n => toString n
  | .vStr s => s

/-- An item as observed by `getItemKey`: only the three identity fields
matter; the rest of the payload is opaque.  A field the source object does
not carry reads as `undefined`. -/
structure Item where
  id : JVal := .vUndefined
  uuid : JVal := .vUndefined
  mongoId : JVal := .vUndefined
  deriving DecidableEq, Repr

/-- `getItemKey(item, index)` from the source (identical in all variants):

    if (item?.id !== undefined && item.id !== null) return `item-${item.id}`
    if (item?.uuid) return `item-${item.uuid}`
    if (item?._id) return `item-${item._id}`
    return `item-idx-${index}`

`mongoId` stands for the source field `_id`. -/
def getItemKey (item : Item) (index : Nat) : String :=
  if item.id ≠ JVal.vUndefined ∧ item.id ≠ JVal.vNull then
    "item-" ++ jvalToString item.id
  else if truthy item.uuid then
    "item-" ++ jvalToString item.uuid
  else if truthy item.mongoId then
    "item-" ++ jvalToString item.mongoId
  else
    "item-idx-" ++ toString index

/-! ## Configuration

The components read their configuration through `computed`s with JavaScript
`||` / `??` defaults (values from `unnamed/part_001`, first component):

    minColumns      = props.content?.minColumns || 1
    maxColumns      = props.content?.maxColumns || 3
    baseColumnWidth = props.content?.columnWidth || 300
    gap             = props.content?.gap ?? 16

`||` replaces a missing *or zero* value by the default, `??` only a missing
one.  The documented ranges are non-negative, so widths are modelled as
naturals. -/

/-- The relevant fields of `props.content`; `none` models an absent field. -/
structure Content where
  columnWidth : Option Nat := none
  gap : Option Nat := none
  minColumns : Option Nat := none
  maxColumns : Option Nat := none
  deriving DecidableEq, Repr

/-- `props.content?.minColumns || 1`. -/
def minColumnsOf (c : Content) : Nat :=
  match c.minColumns with
  | some n => if n = 0 then 1 else n
  | none => 1

/-- `props.content?.maxColumns || 3`. -/
def maxColumnsOf (c : Content) : Nat :=
  match c.maxColumns with
  | some n => if n = 0 then 3 else n
  | none => 3

/-- `props.content?.columnWidth || 300`. -/
def baseColumnWidthOf (c : Content) : Nat :=
  match c.columnWidth with
  | some n => if n = 0 then 300 else n
  | none => 300

/-- `props.content?.gap ?? 16` (a configured `0` is kept). -/
def gapOf (c : Content) : Nat :=
  c.gap.getD 16

/-! ## Column-count computation (`unnamed/part_001`, first component)

    const numColumns = computed(() => {
      if (!containerWidth.value) return minColumns.value
      const availableWidth = containerWidth.value
      const gapValue = gap.value
      let columns = Math.floor((availableWidth + gapValue) / (baseColumnWidth.value + gapValue))
      return Math.max(minColumns.value, Math.min(maxColumns.value, columns))
    })

On naturals, `Math.floor` of the quotient is natural division.  The effective
`baseColumnWidth` is never `0` (the `|| 300` default), so the divisor
`baseColumnWidth + gap` is positive. -/

/-- The `numColumns` computed, as a function of the configuration and the
observed container width (`0` models an unknown width, which is falsy). -/
def numColumns (c : Content) (containerWidth : Nat) : Nat :=
  if containerWidth = 0 then minColumnsOf c
  else
    max (minColumnsOf c)
      (min (maxColumnsOf c)
        ((containerWidth + gapOf c) / (baseColumnWidthOf c + gapOf c)))

/-- Modelled from the spec: `columns = clamp(floor((availableWidth+gap) /
(baseColumnWidth+gap)), minColumns, maxColumns)`, with the clamp written as
in the source (upper bound applied first, lower bound last). -/
def computeColumnsSpec (minC maxC baseW g w : Nat) : Nat :=
  max minC (min maxC ((w + g) / (baseW + g)))

/-! ## Round-robin distribution (`unnamed/part_001`, second component)

    const columns = computed(() => {
      const cols = []
      const numCols = maxColumns.value
      for (let i = 0; i < numCols; i++) cols.push([])
      processedItems.value.forEach((item, index) => {
        const colIndex = index % numCols
        cols[colIndex].push({ item, originalIndex: index })
      })
      return cols
    })

(The `console.log` diagnostics are non-functional and omitted.) -/

/-- One step of the `forEach`: walk the items with their original index,
appending each to bucket `index % numCols`. -/
def distribute (numCols : Nat) : List α → Nat → List (List (α × Nat)) → List (List (α × Nat))
  | [], _, cols => cols
  | a :: rest, index, cols =>
      distribute numCols rest (index + 1)
        (cols.set (index % numCols) (cols.getD (index % numCols) [] ++ [(a, index)]))

/-- The `columns` computed: `maxColumns` empty buckets, then the round-robin
`forEach`.  Each entry is `(item, originalIndex)`. -/
def columns (items : List α) (numCols : Nat) : List (List (α × Nat)) :=
  distribute numCols items 0 (List.replicate numCols [])

/-- The items that land in bucket `j` when walking `items` with starting
index `i`: reference description of one bucket of `distribute`. -/
def bucket (n j : Nat) : List α → Nat → List (α × Nat)
  | [], _ => []
  | a :: rest, index =>
      if index % n = j then (a, index) :: bucket n j rest (index + 1)
      else bucket n j rest (index + 1)

/-! ## Progressive renderer (`unnamed/part_000`)

    const generateSkeletons = (count) => {
      const heights = [200, 250, 180, 300, 220, 270, 190, 240, 280, 210, 260, 230, 290, 200, 250]
      return Array(count).fill(null).map((_, i) => ({
        __skeleton: true,
        __skeletonId: `skeleton-${i}`,
        __skeletonHeight: heights[i % heights.length]
      }))
    }

`renderItemsProgressively(items, batchSize = 3, delayBetweenBatches = 80)`
publishes, through `visibleItems` and `isProgressiveLoading`:
 * nothing but an empty list with the flag cleared, when `items` is missing
   or empty;
 * otherwise the full skeleton list immediately (flag set), then — after a
   500-unit settle timeout — one batch per `renderBatch` call: with
   `endIndex = min(currentIndex + batchSize, items.length)` it publishes
   `items.slice(0, endIndex) ++ skeletons.slice(endIndex)`, clears the flag
   when `endIndex` has reached `items.length`, and otherwise schedules the
   next batch `delayBetweenBatches` units later.

We model the run as the list of published states in order: each entry is
`(time, visibleItems, isProgressiveLoading)` with the flag value as it
stands at the end of that callback. -/

/-- An entry of the published `visibleItems` list: either a real item or a
skeleton placeholder `{__skeleton: true, __skeletonId: skeleton-i,
__skeletonHeight: h}` (modelled by its index `i` and height `h`). -/
inductive Visible (α : Type) where
  | real : α → Visible α
  | skeleton : Nat → Nat → Visible α
  deriving DecidableEq, Repr

/-- `true` exactly on real (non-skeleton) entries. -/
def isReal : Visible α → Bool
  | .real _ => true
  | .skeleton _ _ => false

/-- The fixed skeleton height cycle table of `generateSkeletons`. -/
def skeletonHeights : List Nat :=
  [200, 250, 180, 300, 220, 270, 190, 240, 280, 210, 260, 230, 290, 200, 250]

/-- `generateSkeletons(count)`: one placeholder per item, heights drawn
round-robin from the fixed table. -/
def generateSkeletons (count : Nat) : List (Visible α) :=
  (List.range count).map fun i =>
    Visible.skeleton i (skeletonHeights.getD (i % skeletonHeights.length) 0)

/-- The batch loop of `renderItemsProgressively`, as the list of published
`(time, visibleItems, flag)` states.  `currentIndex` and `t` are the index
and time of the next batch.  Every call site uses `batchSize = 3`, so each
batch reveals at least one item and `items.length` bounds the number of
batches; `fuel` (instantiated to `items.length` by `runBatches`) makes the
recursion structural.  (A `batchSize` of `0` would re-publish the same state
forever in the source; the fuel cuts that unreachable case off.) -/
def runBatchesAux (items : List α) (skeletons : List (Visible α))
    (batchSize delay : Nat) : Nat → Nat → Nat → List (Nat × List (Visible α) × Bool)
  | _, _, 0 => []
  | currentIndex, t, fuel + 1 =>
      if items.length ≤ currentIndex then []
      else
        let endIndex := min (currentIndex + batchSize) items.length
        (t, (items.take endIndex).map Visible.real ++ skeletons.drop endIndex,
            decide (endIndex < items.length)) ::
          runBatchesAux items skeletons batchSize delay endIndex (t + delay) fuel

/-- The batch phase starting at index `0`, time `500` (the settle delay). -/
def runBatches (items : List α) (skeletons : List (Visible α))
    (batchSize delay : Nat) : List (Nat × List (Visible α) × Bool) :=
  runBatchesAux items skeletons batchSize delay 0 500 items.length

/-- `renderItemsProgressively(items, batchSize, delayBetweenBatches)` as the
ordered list of published `(time, visibleItems, isProgressiveLoading)`
states; `none` models a missing (`null`/`undefined`) `items` argument, which
the source's `!items` guard treats like an empty list. -/
def renderItemsProgressively (items : Option (List α)) (batchSize delay : Nat) :
    List (Nat × List (Visible α) × Bool) :=
  match items with
  | none => [(0, [], false)]
  | some xs =>
      if xs.length = 0 then [(0, [], false)]
      else
        (0, generateSkeletons xs.length, true) ::
          runBatches xs (generateSkeletons xs.length) batchSize delay

/-! ## Item normalization (the `props.content?.items` watcher)

    watch(() => props.content?.items, (newItems) => {
      if (!Array.isArray(newItems)) {
        processedItems.value = []
        setItemCount(0)
        return
      }
      processedItems.value = [...newItems]
      setItemCount(newItems.length)
    }, { immediate: true })
-/

/-- The raw `props.content?.items` value: either a proper array or any
non-array JavaScript value (`undefined`, `null`, an object, a number, ...). -/
inductive RawItems (α : Type) where
  | notArray : RawItems α
  | array : List α → RawItems α

/-- The state the watcher publishes: the normalized `processedItems` and the
`itemCount` pushed to the external variable collaborator. -/
structure ItemsState (α : Type) where
  processedItems : List α
  itemCount : Nat
  deriving DecidableEq, Repr

/-- The body of the items watcher.  `[...newItems]` builds a fresh array
with the same elements in the same order, modelled structurally. -/
def onItemsChange : RawItems α → ItemsState α
  | .notArray => ⟨[], 0⟩
  | .array xs => ⟨xs, xs.length⟩

/-! ## Helper lemmas -/

/-- Splitting a list by a Boolean predicate preserves the total length. -/
theorem length_filter_add_length_filter_not (p : α → Bool) :
    ∀ l : List α, (l.filter p).length + (l.filter (fun a => ! p a)).length = l.length
  | [] => rfl
  | a :: l => by
    by_cases h : p a <;>
      simp [List.filter_cons, h, ← length_filter_add_length_filter_not p l] <;> omega

/-- `distribute` never changes the number of buckets. -/
theorem length_distribute (numCols : Nat) :
    ∀ (items : List α) (i : Nat) (cols : List (List (α × Nat))),
      (distribute numCols items i cols).length = cols.length
  | [], _, _ => rfl
  | a :: rest, i, cols => by
    rw [distribute, length_distribute numCols rest (i + 1) _, List.length_set]

/-- Bucket `j` of `distribute` is the initial bucket content followed by
exactly the items whose index lands on `j`. -/
theorem distribute_getD (numCols : Nat) :
    ∀ (items : List α) (i : Nat) (cols : List (List (α × Nat))) (j : Nat),
      j < cols.length →
      (distribute numCols items i cols).getD j [] = cols.getD j [] ++ bucket numCols j items i
  | [], i, cols, j, _ => by simp [distribute, bucket]
  | a :: rest, i, cols, j, hj => by
    rw [distribute,
      distribute_getD numCols rest (i + 1) _ j (by rw [List.length_set]; exact hj)]
    by_cases hij : i % numCols = j
    · rw [hij, bucket, if_pos hij, List.getD_eq_getElem?_getD,
        List.getElem?_set_eq_of_lt _ (hij ▸ hj), List.getD_eq_getElem?_getD]
      simp
    · rw [bucket, if_neg hij, List.getD_eq_getElem?_getD, List.getElem?_set_ne hij,
        ← List.getD_eq_getElem?_getD]

/-- Bucket `j` of `columns items n` is exactly `bucket n j items 0`. -/
theorem columns_getD (items : List α) (n j : Nat) (hj : j < n) :
    (columns items n).getD j [] = bucket n j items 0 := by
  rw [columns, distribute_getD n items 0 (List.replicate n []) j (by simpa using hj)]
  simp [List.getD_eq_getElem?_getD, List.getElem?_replicate, hj]

/-- `columns` always produces exactly `numCols` buckets. -/
theorem length_columns (items : List α) (n : Nat) : (columns items n).length = n := by
  rw [columns, length_distribute, List.length_replicate]

/-- The item walked at offset `k` (original index `i + k`) appears in the
bucket its index selects. -/
theorem mem_bucket_of_index (n j : Nat) :
    ∀ (items : List α) (i k : Nat) (hk : k < items.length),
      (i + k) % n = j → (items.get ⟨k, hk⟩, i + k) ∈ bucket n j items i
  | a :: rest, i, 0, _, h => by
    rw [Nat.add_zero] at h
    simp [bucket, if_pos h]
  | a :: rest, i, k + 1, hk, h => by
    have h' : (i + 1 + k) % n = j := by rw [show i + 1 + k = i + (k + 1) by omega]; exact h
    have hmem := mem_bucket_of_index n j rest (i + 1) k (by simpa using hk) h'
    rw [show i + 1 + k = i + (k + 1) by omega] at hmem
    simp only [List.get_eq_getElem] at hmem
    by_cases hc : i % n = j <;> simp [bucket, hc, hmem]

/-- Everything in `bucket n j items i` is an item of `items` tagged with its
original index, and that index selects bucket `j`. -/
theorem bucket_sound (n j : Nat) :
    ∀ (items : List α) (i : Nat) (p : α × Nat), p ∈ bucket n j items i →
      p.2 % n = j ∧ i ≤ p.2 ∧ items.get? (p.2 - i) = some p.1
  | [], _, p => by intro hp; simp [bucket] at hp
  | a :: rest, i, p => by
    rw [bucket]
    by_cases hc : i % n = j
    · rw [if_pos hc]
      intro hp
      rcases List.mem_cons.1 hp with h | h
      · subst h; simpa using hc
      · obtain ⟨h1, h2, h3⟩ := bucket_sound n j rest (i + 1) p h
        refine ⟨h1, by omega, ?_⟩
        rw [show p.2 - i = (p.2 - (i + 1)) + 1 by omega]
        simpa using h3
    · rw [if_neg hc]
      intro hp
      obtain ⟨h1, h2, h3⟩ := bucket_sound n j rest (i + 1) p hp
      refine ⟨h1, by omega, ?_⟩
      rw [show p.2 - i = (p.2 - (i + 1)) + 1 by omega]
      simpa using h3

/-- Original indices strictly increase along a bucket. -/
theorem bucket_chain (n j : Nat) :
    ∀ (items : List α) (i : Nat),
      List.Chain' (fun p q : α × Nat => p.2 < q.2) (bucket n j items i)
  | [], _ => List.chain'_nil
  | a :: rest, i => by
    rw [bucket]
    by_cases hc : i % n = j
    · rw [if_pos hc, List.chain'_cons']
      refine ⟨fun q hq => ?_, bucket_chain n j rest (i + 1)⟩
      have := (bucket_sound n j rest (i + 1) q (List.mem_of_mem_head? hq)).2.1
      omega
    · rw [if_neg hc]
      exact bucket_chain n j rest (i + 1)

/-- Once every item is revealed, no further batch is published. -/
theorem runBatchesAux_of_le (items : List α) (sk : List (Visible α)) (b d : Nat)
    (cur t fuel : Nat) (h : items.length ≤ cur) :
    runBatchesAux items sk b d cur t fuel = [] := by
  cases fuel with
  | zero => rfl
  | succ f => rw [runBatchesAux, if_pos h]

/-- Every state the batch loop publishes has exactly one entry per item. -/
theorem runBatchesAux_length (items : List α) (sk : List (Visible α)) (b d : Nat)
    (hsk : sk.length = items.length) :
    ∀ (fuel cur t : Nat) (e : Nat × List (Visible α) × Bool),
      e ∈ runBatchesAux items sk b d cur t fuel → e.2.1.length = items.length
  | 0, _, _, _ => by intro he; simp [runBatchesAux] at he
  | fuel + 1, cur, t, e => by
    intro he
    rw [runBatchesAux] at he
    by_cases hc : items.length ≤ cur
    · rw [if_pos hc] at he; simp at he
    · rw [if_neg hc] at he
      rcases List.mem_cons.1 he with h | h
      · subst h
        simp only [List.length_append, List.length_map, List.length_take, List.length_drop, hsk]
        omega
      · exact runBatchesAux_length items sk b d hsk fuel _ _ e h

/-- The batch loop publishes at least one state when items remain. -/
theorem runBatchesAux_ne_nil (items : List α) (sk : List (Visible α)) (b d : Nat)
    (cur t fuel : Nat) (h : cur < items.length) :
    runBatchesAux items sk b d cur t (fuel + 1) ≠ [] := by
  rw [runBatchesAux, if_neg (Nat.not_le.2 h)]
  exact List.cons_ne_nil _ _

/-- The `k`-th published batch state: it appears at time `t + delay * k` and
shows the first `min (cur + batchSize * (k+1)) items.length` real items
followed by the remaining skeletons, with the loading flag still set exactly
when items remain. -/
theorem runBatchesAux_get? (items : List α) (sk : List (Visible α)) (b d : Nat)
    (hb : 1 ≤ b) :
    ∀ (k fuel cur t : Nat), items.length - cur ≤ fuel →
      cur + b * k < items.length →
      (runBatchesAux items sk b d cur t fuel).get? k =
        some (t + d * k,
          (items.take (min (cur + b * (k + 1)) items.length)).map Visible.real ++
            sk.drop (min (cur + b * (k + 1)) items.length),
          decide (min (cur + b * (k + 1)) items.length < items.length))
  | 0, fuel, cur, t, hfuel, hk => by
    have hcur : cur < items.length := by omega
    obtain ⟨f, rfl⟩ : ∃ f, fuel = f + 1 := ⟨fuel - 1, by omega⟩
    rw [runBatchesAux, if_neg (Nat.not_le.2 hcur)]
    simp [Nat.mul_one]
  | k + 1, fuel, cur, t, hfuel, hk => by
    have hcb : cur + b ≤ items.length := by
      have : b ≤ b * (k + 1) := Nat.le_mul_of_pos_right b (by omega)
      omega
    have hcur : cur < items.length := by omega
    obtain ⟨f, rfl⟩ : ∃ f, fuel = f + 1 := ⟨fuel - 1, by omega⟩
    rw [runBatchesAux, if_neg (Nat.not_le.2 hcur)]
    have hend : min (cur + b) items.length = cur + b := Nat.min_eq_left hcb
    simp only [hend, List.get?_cons_succ]
    have hk' : (cur + b) + b * k < items.length := by
      have : b + b * k = b * (k + 1) := by ring
      omega
    rw [runBatchesAux_get? items sk b d hb k f (cur + b) (t + d) (by omega) hk']
    have h1 : cur + b + b * (k + 1) = cur + b * (k + 1 + 1) := by ring
    have h2 : t + d + d * k = t + d * (k + 1) := by ring
    rw [h1, h2]

/-- The batch loop ends with every item revealed and the flag cleared. -/
theorem runBatchesAux_getLast? (items : List α) (sk : List (Visible α)) (b d : Nat)
    (hb : 1 ≤ b) (hsk : sk.length = items.length) :
    ∀ (fuel cur t : Nat), items.length - cur ≤ fuel → cur < items.length →
      ∃ tl, (runBatchesAux items sk b d cur t fuel).getLast? =
        some (tl, items.map Visible.real, false)
  | 0, cur, t, hfuel, hcur => absurd hfuel (by omega)
  | fuel + 1, cur, t, hfuel, hcur => by
    rw [runBatchesAux, if_neg (Nat.not_le.2 hcur)]
    dsimp only
    by_cases hend : items.length ≤ cur + b
    · have hmin : min (cur + b) items.length = items.length := Nat.min_eq_right hend
      rw [hmin, runBatchesAux_of_le items sk b d _ _ fuel (Nat.le_refl _)]
      refine ⟨t, ?_⟩
      simp [List.take_length, hsk ▸ List.drop_length sk, hsk]
    · have hmin : min (cur + b) items.length = cur + b := Nat.min_eq_left (by omega)
      rw [hmin]
      obtain ⟨tl, htl⟩ :=
        runBatchesAux_getLast? items sk b d hb hsk fuel (cur + b) (t + d)
          (by omega) (by omega)
      have hne : runBatchesAux items sk b d (cur + b) (t + d) fuel ≠ [] := by
        intro hnil
        rw [hnil] at htl
        simp at htl
      obtain ⟨y, ys, hys⟩ := List.exists_cons_of_ne_nil hne
      refine ⟨tl, ?_⟩
      rw [hys, List.getLast?_cons_cons, ← hys, htl]

/-! ## Claim theorems -/

/-- C1: The round-robin layout assigns the item at original index `i` to
column `i % maxColumns`, produces exactly `maxColumns` columns (the
computation takes no container width at all), stores each item with its
original index, and keeps original indices strictly increasing within each
column; for 5 items and `maxColumns = 3` the column sizes are `[2, 2, 1]`
with item0→col0, item1→col1, item2→col2, item3→col0, item4→col1.  The
effective `maxColumns` (`props.content?.maxColumns || 3`) is always
positive, which the hypothesis `0 < n` reflects. -/
theorem roundrobin_columns_correct :
    (∀ (α : Type) (items : List α) (n : Nat), 0 < n →
      (columns items n).length = n ∧
      (∀ (i : Nat) (hi : i < items.length),
        (items.get ⟨i, hi⟩, i) ∈ (columns items n).getD (i % n) []) ∧
      (∀ j, j < n → ∀ p ∈ (columns items n).getD j [],
        p.2 % n = j ∧ items.get? p.2 = some p.1) ∧
      (∀ j, List.Chain' (fun p q : α × Nat => p.2 < q.2) ((columns items n).getD j []))) ∧
    (columns ([0, 1, 2, 3, 4] : List Nat) 3).map List.length = [2, 2, 1] ∧
    columns ([0, 1, 2, 3, 4] : List Nat) 3 =
      [[(0, 0), (3, 3)], [(1, 1), (4, 4)], [(2, 2)]] := by
  refine ⟨fun α items n hn => ⟨length_columns items n, ?_, ?_, ?_⟩, by decide, by decide⟩
  · intro i hi
    rw [columns_getD items n (i % n) (Nat.mod_lt i hn)]
    have h := mem_bucket_of_index n (i % n) items 0 i hi (by simp)
    simpa using h
  · intro j hj p hp
    rw [columns_getD items n j hj] at hp
    obtain ⟨h1, _, h3⟩ := bucket_sound n j items 0 p hp
    exact ⟨h1, by simpa using h3⟩
  · intro j
    by_cases hj : j < n
    · rw [columns_getD items n j hj]
      exact bucket_chain n j items 0
    · rw [List.getD_eq_getElem?_getD, List.getElem?_eq_none (by rw [length_columns]; omega)]
      exact List.chain'_nil

theorem roundrobin_columns_correct_witness :
    ((5 : Nat), 0) ∈ (columns ([5] : List Nat) 3).getD (0 % 3) [] :=
  (roundrobin_columns_correct.1 Nat [5] 3 (by decide)).2.1 0 (by decide)

/-- C2: For every configuration and every known (non-zero) container width,
the computed column count is `clamp(floor((availableWidth + gap) /
(baseColumnWidth + gap)), minColumns, maxColumns)` over the effective
configuration values; with containerWidth 900, columnWidth 300, gap 16,
minColumns 1, maxColumns 3 the count is `clamp(floor(916/316), 1, 3) = 2`. -/
theorem numColumns_matches_clamp_formula :
    (∀ (c : Content) (w : Nat), w ≠ 0 →
      numColumns c w =
        computeColumnsSpec (minColumnsOf c) (maxColumnsOf c) (baseColumnWidthOf c)
          (gapOf c) w) ∧
    numColumns ⟨some 300, some 16, some 1, some 3⟩ 900 = 2 := by
  refine ⟨fun c w hw => ?_, by decide⟩
  rw [numColumns, if_neg hw, computeColumnsSpec]

theorem numColumns_matches_clamp_formula_witness :
    numColumns ⟨some 300, some 16, some 1, some 3⟩ 900 =
      computeColumnsSpec 1 3 300 16 900 :=
  numColumns_matches_clamp_formula.1 ⟨some 300, some 16, some 1, some 3⟩ 900 (by decide)

/-- C3: Whenever the effective bounds satisfy `minColumns ≤ maxColumns` and
the container width is known (non-zero), the computed column count lies in
`[minColumns, maxColumns]`; and for an unknown (zero) width it equals
`minColumns`. -/
theorem numColumns_bounds :
    (∀ (c : Content) (w : Nat), minColumnsOf c ≤ maxColumnsOf c → w ≠ 0 →
      minColumnsOf c ≤ numColumns c w ∧ numColumns c w ≤ maxColumnsOf c) ∧
    (∀ c : Content, numColumns c 0 = minColumnsOf c) := by
  constructor
  · intro c w hmm hw
    rw [numColumns, if_neg hw]
    exact ⟨Nat.le_max_left _ _, Nat.max_le.2 ⟨hmm, Nat.min_le_left _ _⟩⟩
  · intro c
    rw [numColumns, if_pos rfl]

theorem numColumns_bounds_witness :
    1 ≤ numColumns ⟨some 300, some 16, some 1, some 3⟩ 900 ∧
      numColumns ⟨some 300, some 16, some 1, some 3⟩ 900 ≤ 3 :=
  numColumns_bounds.1 ⟨some 300, some 16, some 1, some 3⟩ 900 (by decide) (by decide)

/-- C10: For a known (non-zero) container width and conflicting bounds
(`minColumns > maxColumns`), the computed column count equals `minColumns`:
the code applies `min` with `maxColumns` first and `max` with `minColumns`
last, so the lower bound wins.  Example: minColumns 5, maxColumns 2,
width 900 gives 5. -/
theorem numColumns_min_wins_on_conflict :
    (∀ (c : Content) (w : Nat), w ≠ 0 → maxColumnsOf c < minColumnsOf c →
      numColumns c w = minColumnsOf c) ∧
    numColumns ⟨some 300, some 16, some 5, some 2⟩ 900 = 5 := by
  refine ⟨fun c w hw hlt => ?_, by decide⟩
  rw [numColumns, if_neg hw]
  exact Nat.max_eq_left (Nat.le_of_lt (Nat.lt_of_le_of_lt (Nat.min_le_left _ _) hlt))

theorem numColumns_min_wins_on_conflict_witness :
    numColumns ⟨some 300, some 16, some 5, some 2⟩ 900 =
      minColumnsOf ⟨some 300, some 16, some 5, some 2⟩ :=
  numColumns_min_wins_on_conflict.1 ⟨some 300, some 16, some 5, some 2⟩ 900
    (by decide) (by decide)

/-- C6: `getItemKey` is a pure total function following the identity
precedence: the key derives from `id` when that field is neither `undefined`
nor `null`, otherwise from a truthy `uuid`, otherwise from a truthy `_id`,
and otherwise is the positional fallback derived from `idx-<index>` (all
keys carry the uniform `item-` prefix the source template literals add). -/
theorem getItemKey_precedence :
    (∀ (item : Item) (idx : Nat), item.id ≠ JVal.vUndefined → item.id ≠ JVal.vNull →
      getItemKey item idx = "item-" ++ jvalToString item.id) ∧
    (∀ (item : Item) (idx : Nat), (item.id = JVal.vUndefined ∨ item.id = JVal.vNull) →
      truthy item.uuid = true →
      getItemKey item idx = "item-" ++ jvalToString item.uuid) ∧
    (∀ (item : Item) (idx : Nat), (item.id = JVal.vUndefined ∨ item.id = JVal.vNull) →
      truthy item.uuid = false → truthy item.mongoId = true →
      getItemKey item idx = "item-" ++ jvalToString item.mongoId) ∧
    (∀ (item : Item) (idx : Nat), (item.id = JVal.vUndefined ∨ item.id = JVal.vNull) →
      truthy item.uuid = false → truthy item.mongoId = false →
      getItemKey item idx = "item-idx-" ++ toString idx) := by
  refine ⟨?_, ?_, ?_, ?_⟩
  · intro item idx h1 h2
    simp [getItemKey, h1, h2]
  · intro item idx hid hu
    rcases hid with h | h <;> simp [getItemKey, h, hu]
  · intro item idx hid hu hm
    rcases hid with h | h <;> simp [getItemKey, h, hu, hm]
  · intro item idx hid hu hm
    rcases hid with h | h <;> simp [getItemKey, h, hu, hm]

theorem getItemKey_precedence_witness :
    getItemKey ⟨JVal.vNum 7, JVal.vStr "u", JVal.vStr "m"⟩ 0 =
      "item-" ++ jvalToString (JVal.vNum 7) :=
  getItemKey_precedence.1 ⟨JVal.vNum 7, JVal.vStr "u", JVal.vStr "m"⟩ 0
    (by decide) (by decide)

/-- C9: The `id` branch fires exactly on `id ∉ {undefined, null}`: if `id`
is neither `undefined` nor `null` the key derives from `id` — even for
falsy values such as `0`, the empty string or `false` — and if `id` is
`undefined` or `null` the key is fully determined by the
`uuid`/`_id`/index cascade (so a nullish `id`, including `null`, never
selects the `id` branch); `uuid` and `_id` require truthiness, so an
empty-string `uuid` falls through to `_id` or the positional fallback,
with both nullish `id` values exercised concretely. -/
theorem getItemKey_truthiness :
    (∀ (v : JVal) (idx : Nat), v ≠ JVal.vUndefined → v ≠ JVal.vNull →
      ∀ (u m : JVal), getItemKey ⟨v, u, m⟩ idx = "item-" ++ jvalToString v) ∧
    (∀ (v u m : JVal) (idx : Nat), (v = JVal.vUndefined ∨ v = JVal.vNull) →
      getItemKey ⟨v, u, m⟩ idx =
        if truthy u then "item-" ++ jvalToString u
        else if truthy m then "item-" ++ jvalToString m
        else "item-idx-" ++ toString idx) ∧
    getItemKey ⟨JVal.vNum 0, JVal.vStr "u", JVal.vStr "m"⟩ 4 = "item-0" ∧
    getItemKey ⟨JVal.vStr "", JVal.vStr "u", JVal.vStr "m"⟩ 4 = "item-" ∧
    getItemKey ⟨JVal.vBool false, JVal.vStr "u", JVal.vStr "m"⟩ 4 = "item-false" ∧
    getItemKey ⟨JVal.vNull, JVal.vStr "u", JVal.vStr "m"⟩ 4 = "item-u" ∧
    getItemKey ⟨JVal.vUndefined, JVal.vStr "", JVal.vStr "abc"⟩ 4 = "item-abc" ∧
    getItemKey ⟨JVal.vNull, JVal.vStr "", JVal.vStr "abc"⟩ 4 = "item-abc" ∧
    getItemKey ⟨JVal.vUndefined, JVal.vStr "", JVal.vUndefined⟩ 4 = "item-idx-4" ∧
    getItemKey ⟨JVal.vNull, JVal.vStr "", JVal.vNull⟩ 4 = "item-idx-4" := by
  refine ⟨?_, ?_, by decide, by decide, by decide, by decide, by decide, by decide,
    by decide, by decide⟩
  · intro v idx h1 h2 u m
    simp [getItemKey, h1, h2]
  · intro v u m idx hid
    rcases hid with h | h <;> subst h <;> simp [getItemKey]

theorem getItemKey_truthiness_witness :
    getItemKey ⟨JVal.vNum 0, JVal.vStr "u", JVal.vStr "m"⟩ 9 =
      "item-" ++ jvalToString (JVal.vNum 0) :=
  getItemKey_truthiness.1 (JVal.vNum 0) 9 (by decide) (by decide)
    (JVal.vStr "u") (JVal.vStr "m")

/-- C7: A non-array input normalizes to the empty item list with published
count 0 (no error: `onItemsChange` is total); an array input yields the same
elements in the same order (the `[...newItems]` copy, modelled structurally)
with published count equal to its length. -/
theorem items_watcher_normalizes :
    (∀ (α : Type), onItemsChange (RawItems.notArray : RawItems α) = ⟨[], 0⟩) ∧
    (∀ (α : Type) (xs : List α),
      (onItemsChange (RawItems.array xs)).processedItems = xs ∧
      (onItemsChange (RawItems.array xs)).itemCount = xs.length) :=
  ⟨fun _ => rfl, fun _ _ => ⟨rfl, rfl⟩⟩

/-- C8: Started on a missing or empty item list, the progressive renderer
publishes exactly one state, immediately (time 0): the empty visible list
with the progressive-loading flag cleared — no skeletons, no batches. -/
theorem progressive_empty_immediate :
    ∀ (α : Type) (batchSize delay : Nat),
      renderItemsProgressively (none : Option (List α)) batchSize delay =
        [(0, [], false)] ∧
      renderItemsProgressively (some ([] : List α)) batchSize delay =
        [(0, [], false)] :=
  fun _ _ _ => ⟨rfl, rfl⟩

/-- C4: During progressive staging of a non-empty item list, every published
visible list — the initial all-skeleton list and the list after each batch —
has length equal to the item count, and its real entries and skeleton
entries sum to that count. -/
theorem progressive_length_invariant (α : Type) (items : List α)
    (batchSize delay : Nat) (hne : items ≠ []) :
    ∀ e ∈ renderItemsProgressively (some items) batchSize delay,
      e.2.1.length = items.length ∧
      (e.2.1.filter isReal).length +
        (e.2.1.filter (fun v => ! isReal v)).length = items.length := by
  intro e he
  have hlen0 : items.length ≠ 0 := fun h => hne (List.length_eq_zero.1 h)
  have hlen : e.2.1.length = items.length := by
    rw [renderItemsProgressively, if_neg hlen0] at he
    rcases List.mem_cons.1 he with h | h
    · subst h
      simp [generateSkeletons]
    · exact runBatchesAux_length items _ batchSize delay
        (by simp [generateSkeletons]) _ _ _ e h
  exact ⟨hlen, by rw [length_filter_add_length_filter_not isReal e.2.1]; exact hlen⟩

theorem progressive_length_invariant_witness :
    ((0, generateSkeletons 1, true) : Nat × List (Visible Nat) × Bool).2.1.length =
        ([7] : List Nat).length ∧
      (((0, generateSkeletons 1, true) : Nat × List (Visible Nat) × Bool).2.1.filter
          isReal).length +
        (((0, generateSkeletons 1, true) : Nat × List (Visible Nat) × Bool).2.1.filter
          (fun v => ! isReal v)).length = ([7] : List Nat).length :=
  progressive_length_invariant Nat [7] 3 80 (by decide)
    (0, generateSkeletons 1, true) (by decide)

/-- C5: With `batchSize = 3` and `batchInterval = 80`, staging a non-empty
list first publishes the full-length all-skeleton list at time 0 (flag set),
then after the 500-unit settle delay publishes, at time `500 + 80·k`, the
state `realItems[0 : min (3(k+1)) n] ++ skeletons[min (3(k+1)) n :]` — the
revealed prefix only grows, so no revealed item reverts to a skeleton — with
the flag cleared exactly when the revealed prefix reaches the item count;
the final state is all items real with the flag cleared.  For 10 items the
published (time, revealed-count, flag) sequence is exactly
(0,0,true), (500,3,true), (580,6,true), (660,9,true), (740,10,false). -/
theorem progressive_staging_schedule (α : Type) (items : List α) (hne : items ≠ []) :
    (renderItemsProgressively (some items) 3 80).head? =
      some (0, generateSkeletons items.length, true) ∧
    (generateSkeletons items.length : List (Visible α)).length = items.length ∧
    (∀ v ∈ (generateSkeletons items.length : List (Visible α)), isReal v = false) ∧
    (∀ k : Nat, 3 * k < items.length →
      (renderItemsProgressively (some items) 3 80).get? (k + 1) =
        some (500 + 80 * k,
          (items.take (min (3 * (k + 1)) items.length)).map Visible.real ++
            (generateSkeletons items.length : List (Visible α)).drop
              (min (3 * (k + 1)) items.length),
          decide (min (3 * (k + 1)) items.length < items.length))) ∧
    (∃ t, (renderItemsProgressively (some items) 3 80).getLast? =
      some (t, items.map Visible.real, false)) ∧
    (renderItemsProgressively (some (List.range 10)) 3 80).map
        (fun e => (e.1, (e.2.1.filter isReal).length, e.2.2)) =
      [(0, 0, true), (500, 3, true), (580, 6, true), (660, 9, true),
        (740, 10, false)] := by
  have hlen0 : items.length ≠ 0 := fun h => hne (List.length_eq_zero.1 h)
  have hr : renderItemsProgressively (some items) 3 80 =
      (0, generateSkeletons items.length, true) ::
        runBatches items (generateSkeletons items.length) 3 80 := by
    rw [renderItemsProgressively, if_neg hlen0]
  refine ⟨?_, by simp [generateSkeletons], ?_, ?_, ?_, by decide⟩
  · rw [hr]
    rfl
  · intro v hv
    simp [generateSkeletons] at hv
    obtain ⟨i, _, rfl⟩ := hv
    rfl
  · intro k hk
    rw [hr, List.get?_cons_succ, runBatches]
    have h := runBatchesAux_get? items (generateSkeletons items.length) 3 80
      (by omega) k items.length 0 500 (by omega) (by omega)
    simpa only [Nat.zero_add] using h
  · rw [hr, runBatches]
    obtain ⟨tl, htl⟩ := runBatchesAux_getLast? items (generateSkeletons items.length)
      3 80 (by omega) (by simp [generateSkeletons]) items.length 0 500
      (by omega) (by omega)
    have hnil : runBatchesAux items (generateSkeletons items.length) 3 80 0 500
        items.length ≠ [] := by
      intro h
      rw [h] at htl
      simp at htl
    obtain ⟨y, ys, hys⟩ := List.exists_cons_of_ne_nil hnil
    refine ⟨tl, ?_⟩
    rw [hys, List.getLast?_cons_cons, ← hys, htl]

theorem progressive_staging_schedule_witness :
    (renderItemsProgressively (some (List.range 10)) 3 80).map
        (fun e => (e.1, (e.2.1.filter isReal).length, e.2.2)) =
      [(0, 0, true), (500, 3, true), (580, 6, true), (660, 9, true),
        (740, 10, false)] :=
  (progressive_staging_schedule Nat [0] (by decide)).2.2.2.2.2

end Masonry
